import Mathlib

/-!
# Verification of the autograd tracing core

A shallow embedding of `autograd/tracer.py` and `autograd/wrap_util.py`
(plus the one helper, `subvals`, that those modules import from
`autograd/util.py`), together with theorems settling the specification
claims about the trace stack, the box/registry layer, the primitive
interception wrapper, the multi-trace argument resolver, the trace entry
point and the unary-to-nary transform.

Python is dynamically typed, so runtime values are embedded as a single
inductive type `PyObj` covering the value kinds the traced core
manipulates: raw (registered-or-not) leaf values, boxes, and graph nodes.
-/

namespace Autograd

/--
A Python runtime object, as far as the tracing core inspects one.

* `raw ty payload` — an ordinary (non-box, non-node) value; `ty` is a tag
  standing for its runtime type (the key used in `Box.type_mappings`) and
  `payload` its contents.
* `box value trace node` — a `Box` instance (`tracer.py`, class `Box`):
  slots `_value`, `_trace`, `_node`.
* `rootNode variant` — a node created by `Node.new_root` (the start node a
  trace is seeded with); `variant` tags the concrete node class
  (e.g. `VJPNode`).
* `callNode variant value argvals kwargs argnums parents` — a node created
  inside `primitive.f_wrapped` by calling the node class
  `node_constructor(ans, f_wrapped, argvals, kwargs, argnums, parents)`.
  The `fun` field of the Python node (the wrapped primitive itself) is not
  data in this embedding — a single primitive is modelled at a time — so it
  is not stored.
-/
inductive PyObj where
  | raw (ty : Nat) (payload : Int) : PyObj
  | box (value : PyObj) (trace : Int) (node : PyObj) : PyObj
  | rootNode (variant : Nat) : PyObj
  | callNode (variant : Nat) (value : PyObj) (argvals : List PyObj)
      (kwargs : List (String × PyObj)) (argnums : List Nat)
      (parents : List PyObj) : PyObj

/-- Keyword arguments: the core only threads them through, never inspects them. -/
abbrev KW := List (String × PyObj)

/-- Errors the traced core can raise.  `unsupported` is the
`TypeError("Can't differentiate w.r.t. type ...")` raised by `new_box`
(the spec's `UnsupportedValueType`), `typeError` any other `TypeError`,
and `user` a failure raised by user code / a raw operation. -/
inductive TraceErr where
  | unsupported (tyname : String) : TraceErr
  | typeError (msg : String) : TraceErr
  | user (msg : String) : TraceErr
deriving DecidableEq, Repr

/-- `isbox` (`tracer.py` line 196): `type(x) in box_types`.  Every box in
the embedding is built by the registered box classes, so this is a
constructor test. -/
def isbox : PyObj → Bool
  | .box _ _ _ => true
  | _ => false

/-- Attribute access `x._value` (defined on boxes; identity junk elsewhere,
where Python would raise `AttributeError` — every use in the embedding is
guarded by `isbox`). -/
def boxVal : PyObj → PyObj
  | .box v _ _ => v
  | x => x

/-- Attribute access `x._node` (guarded by `isbox` at every use). -/
def boxNode : PyObj → PyObj
  | .box _ _ n => n
  | x => x

/-- Attribute access `x._trace` as an `Option`, used only to state
theorems (`some` exactly on boxes). -/
def boxTrace? : PyObj → Option Int
  | .box _ t _ => some t
  | _ => none

/-- `type(node)` for node objects: the concrete node class, identified by
its variant tag.  (Junk `0` on non-node objects; every use is on nodes.) -/
def variantOf : PyObj → Nat
  | .rootNode v => v
  | .callNode v _ _ _ _ _ => v
  | _ => 0

/-- The `parent_argnums` field of a node built by `f_wrapped`
(empty on root nodes, which have no parents). -/
def nodeArgnums : PyObj → List Nat
  | .callNode _ _ _ _ argnums _ => argnums
  | _ => []

/-- The `parents` field of a node built by `f_wrapped`. -/
def nodeParents : PyObj → List PyObj
  | .callNode _ _ _ _ _ parents => parents
  | _ => []

/-- A display name for `type(value)`, used in the `TypeError` message of
`new_box` (`f"Can't differentiate w.r.t. type {type(value)}"`). -/
def typeName : PyObj → String
  | .raw ty _ => "raw type " ++ toString ty
  | .box _ _ _ => "Box"
  | .rootNode _ => "Node"
  | .callNode _ _ _ _ _ _ => "Node"

/-- Membership of `type(value)` in `Box.type_mappings`.  `reg` says which
raw-value type tags have been given a wrapper via `Box.register`;
`Box.register` also inserts every box class itself
(`Box.type_mappings[cls] = cls`), so box values always hit.  Node classes
are never registered. -/
def type_registered (reg : Nat → Bool) : PyObj → Bool
  | .raw ty _ => reg ty
  | .box _ _ _ => true
  | _ => false

/-- `new_box` (`tracer.py` lines 186-192): look `type(value)` up in
`box_type_mappings`; on a hit construct the box `(value, trace, node)`;
on a `KeyError` raise `TypeError` naming the offending type. -/
def new_box (reg : Nat → Bool) (value : PyObj) (trace : Int) (node : PyObj) :
    Except TraceErr PyObj :=
  if type_registered reg value then .ok (.box value trace node)
  else .error (.unsupported (typeName value))

/-- `getval` (`tracer.py` line 198):
`getval = lambda x: getval(x._value) if isbox(x) else x`. -/
def getval : PyObj → PyObj
  | .box v _ _ => getval v
  | x => x

/-- `Box.__bool__` semantics (`tracer.py` lines 168-171):
`bool(box) = bool(box._value)`, recursing through nested boxes;
`rawTruth` gives Python's truthiness of a raw value of a given type and
payload.  (Node objects have no `__bool__`, so Python's default `True`.) -/
def box_bool (rawTruth : Nat → Int → Bool) : PyObj → Bool
  | .raw ty p => rawTruth ty p
  | .box v _ _ => box_bool rawTruth v
  | _ => true

/-- Modelled from the spec: `subvals` from `autograd.util`, which is not
under `src/` (only its import sites are).  Per the spec it substitutes the
given `(position, value)` pairs into the positional argument list, leaving
every other position unchanged ("substituting each tracked position's raw
value", "positional zip-substitution").  A Python out-of-range assignment
would raise `IndexError` where `List.set` is the identity; every use
verified here substitutes in-range positions, where the two agree. -/
def subvals {α : Type} (xs : List α) (ivs : List (Nat × α)) : List α :=
  ivs.foldl (fun acc iv => acc.set iv.1 iv.2) xs

/-- The loop of `find_top_boxed_args` (`tracer.py` lines 123-131):
`for argnum, arg in enumerate(args)` with running state
`(top_boxes, top_trace, top_node_type)`; `argnum` is the position of the
head of the remaining list. -/
def findTopAux : List PyObj → Nat →
    List (Nat × PyObj) × Int × Option Nat → List (Nat × PyObj) × Int × Option Nat
  | [], _, st => st
  | arg :: rest, argnum, (top_boxes, top_trace, top_ty) =>
    match arg with
    | .box v tr nd =>
      if top_trace < tr then
        findTopAux rest (argnum + 1) ([(argnum, .box v tr nd)], tr, some (variantOf nd))
      else if tr = top_trace then
        findTopAux rest (argnum + 1) (top_boxes ++ [(argnum, .box v tr nd)], top_trace, top_ty)
      else
        findTopAux rest (argnum + 1) (top_boxes, top_trace, top_ty)
    | _ => findTopAux rest (argnum + 1) (top_boxes, top_trace, top_ty)

/-- `find_top_boxed_args` (`tracer.py` lines 109-135): scan the positional
arguments; return the boxed arguments of the most recent (largest) trace,
that trace id (`-1` if no argument is boxed), and the node class of those
boxes (`None` if no box has yet raised the running maximum). -/
def find_top_boxed_args (args : List PyObj) :
    List (Nat × PyObj) × Int × Option Nat :=
  findTopAux args 0 ([], -1, none)

/-! ## Termination measure for the recursive primitive wrapper

`f_wrapped` recurses on `argvals`, which replaces each box chosen by
`find_top_boxed_args` with its `_value`.  Each replacement strips one box
constructor, so the total box-nesting size of the argument list strictly
decreases. -/

/-- Box-nesting size of a value: `1` plus the size of the wrapped value
for boxes, `1` otherwise. -/
def objSize : PyObj → Nat
  | .box v _ _ => 1 + objSize v
  | _ => 1

/-- Total box-nesting size of an argument list. -/
def argsSize (args : List PyObj) : Nat := (args.map objSize).sum

theorem objSize_pos (x : PyObj) : 0 < objSize x := by
  cases x <;> simp [objSize]

theorem objSize_boxVal_lt {b : PyObj} (hb : isbox b = true) :
    objSize (boxVal b) < objSize b := by
  cases b <;> simp_all [isbox, boxVal, objSize]

theorem argsSize_set_le {xs : List PyObj} {i : Nat} {b v : PyObj}
    (hget : xs[i]? = some b) (hle : objSize v ≤ objSize b) :
    argsSize (xs.set i v) ≤ argsSize xs := by
  induction xs generalizing i with
  | nil => simp at hget
  | cons a rest ih =>
    cases i with
    | zero =>
      simp only [List.getElem?_cons_zero, Option.some_inj] at hget
      subst hget
      simpa [argsSize, List.set] using Nat.add_le_add_right hle (argsSize rest)
    | succ j =>
      simp only [List.getElem?_cons_succ] at hget
      simpa [argsSize, List.set] using Nat.add_le_add_left (ih hget) (objSize a)

theorem argsSize_set_lt {xs : List PyObj} {i : Nat} {b v : PyObj}
    (hget : xs[i]? = some b) (hlt : objSize v < objSize b) :
    argsSize (xs.set i v) < argsSize xs := by
  induction xs generalizing i with
  | nil => simp at hget
  | cons a rest ih =>
    cases i with
    | zero =>
      simp only [List.getElem?_cons_zero, Option.some_inj] at hget
      subst hget
      simpa [argsSize, List.set] using Nat.add_lt_add_right hlt (argsSize rest)
    | succ j =>
      simp only [List.getElem?_cons_succ] at hget
      simpa [argsSize, List.set] using Nat.add_lt_add_left (ih hget) (objSize a)

theorem argsSize_subvals_le {xs : List PyObj} {pairs : List (Nat × PyObj)}
    (hmem : ∀ p ∈ pairs, ∃ b, xs[p.1]? = some b ∧ objSize p.2 ≤ objSize b)
    (hdist : pairs.Pairwise (fun p q => p.1 ≠ q.1)) :
    argsSize (subvals xs pairs) ≤ argsSize xs := by
  induction pairs generalizing xs with
  | nil => simp [subvals]
  | cons p rest ih =>
    obtain ⟨b, hget, hle⟩ := hmem p (List.mem_cons_self ..)
    have hrest : ∀ q ∈ rest, ∃ b, (xs.set p.1 p.2)[q.1]? = some b ∧ objSize q.2 ≤ objSize b := by
      intro q hq
      obtain ⟨b', hget', hle'⟩ := hmem q (List.mem_cons_of_mem _ hq)
      exact ⟨b', by rw [List.getElem?_set_ne (List.rel_of_pairwise_cons hdist hq)]; exact hget', hle'⟩
    calc argsSize (subvals xs (p :: rest))
        = argsSize (subvals (xs.set p.1 p.2) rest) := by simp [subvals]
      _ ≤ argsSize (xs.set p.1 p.2) := ih hrest hdist.of_cons
      _ ≤ argsSize xs := argsSize_set_le hget hle

theorem argsSize_subvals_lt {xs : List PyObj} {pairs : List (Nat × PyObj)}
    (hne : pairs ≠ [])
    (hmem : ∀ p ∈ pairs, ∃ b, xs[p.1]? = some b ∧ objSize p.2 < objSize b)
    (hdist : pairs.Pairwise (fun p q => p.1 ≠ q.1)) :
    argsSize (subvals xs pairs) < argsSize xs := by
  match pairs, hne with
  | p :: rest, _ =>
    obtain ⟨b, hget, hlt⟩ := hmem p (List.mem_cons_self ..)
    have hrest : ∀ q ∈ rest, ∃ b, (xs.set p.1 p.2)[q.1]? = some b ∧ objSize q.2 ≤ objSize b := by
      intro q hq
      obtain ⟨b', hget', hlt'⟩ := hmem q (List.mem_cons_of_mem _ hq)
      exact ⟨b', by rw [List.getElem?_set_ne (List.rel_of_pairwise_cons hdist hq)]; exact hget',
        Nat.le_of_lt hlt'⟩
    calc argsSize (subvals xs (p :: rest))
        = argsSize (subvals (xs.set p.1 p.2) rest) := by simp [subvals]
      _ ≤ argsSize (xs.set p.1 p.2) := argsSize_subvals_le hrest hdist.of_cons
      _ < argsSize xs := argsSize_set_lt hget hlt

/-- Every pair the resolver's loop adds satisfies any predicate that holds
of `(n + k, a)` for every box `a` found at offset `k` of the remaining
arguments (generalized loop invariant). -/
theorem findTopAux_pairs_pred (Q : Nat × PyObj → Prop) :
    ∀ (rest : List PyObj) (n : Nat) (st : List (Nat × PyObj) × Int × Option Nat),
      (∀ p ∈ st.1, Q p) →
      (∀ k a, rest[k]? = some a → isbox a = true → Q (n + k, a)) →
      ∀ p ∈ (findTopAux rest n st).1, Q p := by
  intro rest
  induction rest with
  | nil => intro n st hst _ p hp; exact hst p hp
  | cons arg rest ih =>
    intro n ⟨top_boxes, top_trace, top_ty⟩ hst hnew p hp
    have hshift : ∀ k a, rest[k]? = some a → isbox a = true → Q (n + 1 + k, a) := by
      intro k a hk ha
      have := hnew (k + 1) a (by simpa using hk) ha
      simpa [Nat.add_assoc, Nat.add_comm 1 k] using this
    cases arg with
    | box v tr nd =>
      have hbox : Q (n, .box v tr nd) := by
        simpa using hnew 0 (.box v tr nd) (by simp) (by simp [isbox])
      by_cases h1 : top_trace < tr
      · refine ih (n + 1) _ ?_ hshift p (by simpa [findTopAux, h1] using hp)
        intro q hq
        simp only [List.mem_singleton] at hq
        subst hq; simpa using hbox
      · by_cases h2 : tr = top_trace
        · refine ih (n + 1) _ ?_ hshift p (by simpa [findTopAux, h1, h2] using hp)
          intro q hq
          rcases List.mem_append.1 hq with hq | hq
          · exact hst q hq
          · simp only [List.mem_singleton] at hq; subst hq; exact h2 ▸ hbox
        · exact ih (n + 1) _ hst hshift p (by simpa [findTopAux, h1, h2] using hp)
    | raw ty payload =>
      exact ih (n + 1) _ hst hshift p (by simpa [findTopAux] using hp)
    | rootNode v =>
      exact ih (n + 1) _ hst hshift p (by simpa [findTopAux] using hp)
    | callNode v val avs kw ans ps =>
      exact ih (n + 1) _ hst hshift p (by simpa [findTopAux] using hp)

/-- Loop invariant for the positions: all collected positions stay below
the running index, and the collected list is strictly increasing in its
positions. -/
theorem findTopAux_pairs_sorted :
    ∀ (rest : List PyObj) (n : Nat) (st : List (Nat × PyObj) × Int × Option Nat),
      (∀ p ∈ st.1, p.1 < n) →
      st.1.Pairwise (fun p q => p.1 < q.1) →
      (∀ p ∈ (findTopAux rest n st).1, p.1 < n + rest.length) ∧
        (findTopAux rest n st).1.Pairwise (fun p q => p.1 < q.1) := by
  intro rest
  induction rest with
  | nil =>
    intro n st hlt hsort
    exact ⟨fun p hp => by simpa using hlt p hp, hsort⟩
  | cons arg rest ih =>
    intro n ⟨top_boxes, top_trace, top_ty⟩ hlt hsort
    have hbump : ∀ (l : List (Nat × PyObj)), (∀ p ∈ l, p.1 < n + 1) →
        l.Pairwise (fun p q => p.1 < q.1) →
        (∀ p ∈ (findTopAux rest (n + 1) (l, top_trace, top_ty)).1,
            p.1 < n + (arg :: rest).length) ∧
          (findTopAux rest (n + 1) (l, top_trace, top_ty)).1.Pairwise
            (fun p q => p.1 < q.1) := by
      intro l h1 h2
      have := ih (n + 1) (l, top_trace, top_ty) h1 h2
      refine ⟨fun p hp => ?_, this.2⟩
      have := this.1 p hp
      simpa [List.length_cons, Nat.add_assoc, Nat.add_comm 1 rest.length] using this
    cases arg with
    | box v tr nd =>
      by_cases h1 : top_trace < tr
      · have := hbump [(n, .box v tr nd)] (by simp) (by simp)
        -- the reset branch replaces the state but keeps the same shape
        have hres :
            findTopAux (.box v tr nd :: rest) n (top_boxes, top_trace, top_ty) =
              findTopAux rest (n + 1) ([(n, .box v tr nd)], tr, some (variantOf nd)) := by
          simp [findTopAux, h1]
        rw [hres]
        exact ih (n + 1) _ (by simp) (by simp)
          |>.imp (fun h p hp => by
            simpa [List.length_cons, Nat.add_assoc, Nat.add_comm 1 rest.length] using h p hp)
          id
      · by_cases h2 : tr = top_trace
        · have hres :
              findTopAux (.box v tr nd :: rest) n (top_boxes, top_trace, top_ty) =
                findTopAux rest (n + 1)
                  (top_boxes ++ [(n, .box v tr nd)], top_trace, top_ty) := by
            simp [findTopAux, h1, h2]
          rw [hres]
          refine (ih (n + 1) _ ?_ ?_).imp (fun h p hp => by
            simpa [List.length_cons, Nat.add_assoc, Nat.add_comm 1 rest.length] using h p hp) id
          · intro p hp
            rcases List.mem_append.1 hp with hp | hp
            · exact Nat.lt_succ_of_lt (hlt p hp)
            · simp only [List.mem_singleton] at hp; subst hp; exact Nat.lt_succ_self n
          · rw [List.pairwise_append]
            refine ⟨hsort, by simp, ?_⟩
            intro p hp q hq
            simp only [List.mem_singleton] at hq
            subst hq; exact hlt p hp
        · have hres :
              findTopAux (.box v tr nd :: rest) n (top_boxes, top_trace, top_ty) =
                findTopAux rest (n + 1) (top_boxes, top_trace, top_ty) := by
            simp [findTopAux, h1, h2]
          rw [hres]
          exact hbump top_boxes (fun p hp => Nat.lt_succ_of_lt (hlt p hp)) hsort
    | raw ty payload =>
      exact hbump top_boxes (fun p hp => Nat.lt_succ_of_lt (hlt p hp)) hsort
    | rootNode v =>
      exact hbump top_boxes (fun p hp => Nat.lt_succ_of_lt (hlt p hp)) hsort
    | callNode v val avs kw ans ps =>
      exact hbump top_boxes (fun p hp => Nat.lt_succ_of_lt (hlt p hp)) hsort

/-- Every pair returned by the resolver is a boxed argument found at its
recorded position. -/
theorem find_top_boxed_args_mem (args : List PyObj) :
    ∀ p ∈ (find_top_boxed_args args).1, args[p.1]? = some p.2 ∧ isbox p.2 = true := by
  refine findTopAux_pairs_pred (fun p => args[p.1]? = some p.2 ∧ isbox p.2 = true)
    args 0 ([], -1, none) (by simp) ?_
  intro k a hk ha
  exact ⟨by simpa using hk, ha⟩

/-- The positions returned by the resolver are strictly increasing
(stable left-to-right order). -/
theorem find_top_boxed_args_sorted (args : List PyObj) :
    (find_top_boxed_args args).1.Pairwise (fun p q => p.1 < q.1) :=
  (findTopAux_pairs_sorted args 0 ([], -1, none) (by simp) (by simp)).2

theorem find_top_boxed_args_pos_distinct (args : List PyObj) :
    (find_top_boxed_args args).1.Pairwise (fun p q => p.1 ≠ q.1) :=
  (find_top_boxed_args_sorted args).imp Nat.ne_of_lt

/-- The `argvals` computed by `f_wrapped` (`tracer.py` lines 64-65):
`argvals = subvals(args, [(argnum, box._value) for argnum, box in boxed_args])`. -/
def argvalsOf (args : List PyObj) : List PyObj :=
  subvals args ((find_top_boxed_args args).1.map fun p => (p.1, boxVal p.2))

/-- The node built by the tracked path of `f_wrapped` (`tracer.py` lines
75-78): `node_constructor(ans, f_wrapped, argvals, kwargs, argnums, parents)`
with `parents = tuple(box._node for _, box in boxed_args)` and
`argnums = tuple(argnum for argnum, _ in boxed_args)`. -/
def trackedNode (variant : Nat) (ans : PyObj) (args : List PyObj) (kwargs : KW) : PyObj :=
  PyObj.callNode variant ans (argvalsOf args) kwargs
    ((find_top_boxed_args args).1.map Prod.fst)
    ((find_top_boxed_args args).1.map fun p => boxNode p.2)

/-- The substitution step of `f_wrapped` strictly shrinks the argument
list's box-nesting size: the wrapper's recursion terminates. -/
theorem argsSize_argvals_lt {args : List PyObj}
    (hne : (find_top_boxed_args args).1 ≠ []) :
    argsSize (argvalsOf args) < argsSize args := by
  unfold argvalsOf
  refine argsSize_subvals_lt (by simpa using hne) ?_ ?_
  · intro p hp
    obtain ⟨q, hq, hpq⟩ := List.mem_map.1 hp
    obtain ⟨hget, hbox⟩ := find_top_boxed_args_mem args q hq
    exact ⟨q.2, by rw [← hpq]; exact hget, by rw [← hpq]; exact objSize_boxVal_lt hbox⟩
  · have := find_top_boxed_args_pos_distinct args
    exact (List.pairwise_map).2 (this.imp fun h => h)

/-! ## The primitive wrapper -/

/-- Result of an `f_wrapped` invocation, instrumented with the external
allocation counters the spec's testable properties ask for: `nodes` is the
list of nodes constructed by `node_constructor(...)` during the call (in
construction order) and `boxes` the number of boxes constructed by
`new_box` during the call. -/
structure WrapOut where
  ans : PyObj
  nodes : List PyObj
  boxes : Nat

/-- `primitive.f_wrapped` (`tracer.py` lines 57-83), for one primitive
with raw implementation `f_raw`.

* `reg ty` — whether raw type `ty` is in `Box.type_mappings`;
* `ntr variant` — whether this primitive is in
  `notrace_primitives[variant]` (`f_wrapped in notrace_primitives[node_constructor]`);
* the `none` node-class case arises only when every top box has the
  sentinel trace `-1` (so no box ever raised the running maximum): the
  membership test on `notrace_primitives[None]` finds the fresh empty set
  of the `defaultdict`, the answer is computed, and then
  `node_constructor(...)` — `None(...)` — raises a `TypeError`.

The recursion mirrors the source: both the notrace branch and
`ans = f_wrapped(*argvals, **kwargs)` re-enter the wrapper on `argvals`. -/
def f_wrapped (reg ntr : Nat → Bool) (f_raw : List PyObj → KW → PyObj)
    (args : List PyObj) (kwargs : KW) : Except TraceErr WrapOut :=
  match hb : (find_top_boxed_args args).1 with
  | [] =>
    -- no boxed arguments: just return the raw function's result
    .ok ⟨f_raw args kwargs, [], 0⟩
  | _ :: _ =>
    have hlt : argsSize (argvalsOf args) < argsSize args :=
      argsSize_argvals_lt (by rw [hb]; simp)
    match (find_top_boxed_args args).2.2 with
    | some variant =>
      if ntr variant then
        f_wrapped reg ntr f_raw (argvalsOf args) kwargs
      else
        match f_wrapped reg ntr f_raw (argvalsOf args) kwargs with
        | .error e => .error e
        | .ok sub =>
          let node := trackedNode variant sub.ans args kwargs
          match new_box reg sub.ans (find_top_boxed_args args).2.1 node with
          | .error e => .error e
          | .ok out => .ok ⟨out, sub.nodes ++ [node], sub.boxes + 1⟩
    | none =>
      match f_wrapped reg ntr f_raw (argvalsOf args) kwargs with
      | .error e => .error e
      | .ok _ => .error (.typeError "node constructor is None")
termination_by argsSize args
decreasing_by all_goals exact hlt

/-! ## The trace stack and the trace entry point -/

/-- Outcome of a completed `trace` call: the returned pair
`(out, node)` and whether the non-fatal "Output seems independent of
input." diagnostic was emitted. -/
structure TraceOut where
  out : PyObj
  node : Option PyObj
  warned : Bool

/-- `TraceStack.new_trace` (`tracer.py` lines 146-150) used as
`with trace_stack.new_trace() as t: body`, acting on the current value of
`trace_stack.top` and returning the result together with the value of
`top` after the `with` block.

The source is a `@contextmanager` generator whose `yield` is *not*
wrapped in `try`/`finally`: on normal completion of the body the
generator resumes and runs `self.top -= 1`, but when the body raises, the
exception is thrown into the generator at the `yield` point and
propagates immediately, so `self.top -= 1` is never executed and `top`
stays incremented. -/
def new_trace {α : Type} (top : Int) (body : Int → Except TraceErr α) :
    Except TraceErr α × Int :=
  match body (top + 1) with
  | .ok a => (.ok a, (top + 1) - 1)
  | .error e => (.error e, top + 1)

/-- The body of the `with` block of `trace` (`tracer.py` lines 36-44),
given the trace id `t` issued by the stack. -/
def trace_body (reg : Nat → Bool) (start_node : PyObj)
    (f : PyObj → Except TraceErr PyObj) (x : PyObj) (t : Int) :
    Except TraceErr TraceOut :=
  match new_box reg x t start_node with
  | .error e => .error e
  | .ok start_box =>
    match f start_box with
    | .error e => .error e
    | .ok end_box =>
      -- `if isbox(end_box) and end_box._trace == start_box._trace`
      match start_box, end_box with
      | .box _ st _, .box v tr nd =>
        if tr = st then .ok ⟨v, some nd, false⟩
        else .ok ⟨.box v tr nd, none, true⟩
      | _, other => .ok ⟨other, none, true⟩

/-- `trace(start_node, fun, x)` (`tracer.py` lines 31-44), acting on the
current `trace_stack.top` and additionally returning the value of
`trace_stack.top` after the call. -/
def trace (reg : Nat → Bool) (start_node : PyObj)
    (f : PyObj → Except TraceErr PyObj) (x : PyObj) (top : Int) :
    Except TraceErr TraceOut × Int :=
  new_trace top (trace_body reg start_node f x)

/-! ## The unary-to-nary transform (`wrap_util.py`)

The transform is value-agnostic, so it is embedded over arbitrary types
`V` (argument values), `K` (the opaque kwargs), `R` (the wrapped
function's result) and `S` (the unary operator's result). -/

/-- `argnum`: a single index or an ordered collection of indices
(`wrap_util.py`, `argnum: Union[int, tuple, list]`). -/
inductive Argnum where
  | single (i : Nat) : Argnum
  | multi (indices : List Nat) : Argnum

/-- The runtime shape of the sliced argument `x`: one value for an `int`
argnum, a tuple of values for a collection argnum. -/
def XType (V : Type) : Argnum → Type
  | .single _ => V
  | .multi _ => List V

/-- `unary_f` (`wrap_util.py` lines 48-62): overwrite the locations given
by `argnum` in the captured `args` with (the components of) `x`, keep the
captured `kwargs`, and call `fun`.  A single index is a single
substitution; a collection substitutes positionally via `zip(argnum, x)`. -/
def unary_f {V K R : Type} (fun_ : List V → K → R) (args : List V) (kwargs : K) :
    (argnum : Argnum) → XType V argnum → R
  | .single i, x => fun_ (subvals args [(i, x)]) kwargs
  | .multi indices, x => fun_ (subvals args (indices.zip x)) kwargs

/-- `tuple(args[i] for i in argnum)` (`wrap_util.py` line 67); a lookup at
an out-of-range index raises, hence `Option`. -/
def selectList {V : Type} (args : List V) : List Nat → Option (List V)
  | [] => some []
  | i :: rest =>
    match args[i]? with
    | some v => (selectList args rest).map (fun xs => v :: xs)
    | none => none

/-- `x = args[argnum]` / `x = tuple(args[i] for i in argnum)`
(`wrap_util.py` lines 64-67). -/
def select_x {V : Type} (args : List V) : (argnum : Argnum) → Option (XType V argnum)
  | .single i => args[i]?
  | .multi indices => selectList args indices

/-- `nary_f` (`wrap_util.py` lines 39-76): build `x` from `argnum` and the
call's positional arguments, then hand the substitution closure `unary_f`
and `x` to the wrapped unary operator.  (The extra `*nary_op_args` /
`**nary_op_kwargs` the source forwards are absorbed into `unary_operator`
itself here, and `wrap_nary_f` only rewrites `__name__`/`__doc__`.) -/
def nary_f {V K R S : Type} (fun_ : List V → K → R) (argnum : Argnum)
    (unary_operator : (XType V argnum → R) → XType V argnum → S)
    (args : List V) (kwargs : K) : Option S :=
  (select_x args argnum).map (fun x => unary_operator (unary_f fun_ args kwargs argnum) x)

/-! ## Specification-side descriptions of the resolver

These three definitions transcribe the *claim's* description of
`find_top_boxed_args` (maximum trace id among boxed arguments, the
left-to-right list of pairs at that maximum, the node variant of the
first of them); the theorems below compare the source function against
them. -/

/-- The maximum trace id among the boxed arguments, `-1` when no argument
is boxed. -/
def maxBoxTrace : List PyObj → Int
  | [] => -1
  | a :: rest =>
    match boxTrace? a with
    | some t => max t (maxBoxTrace rest)
    | none => maxBoxTrace rest

/-- The `(position, box)` pairs whose trace id equals `T`, in
left-to-right position order, positions counted from `n`. -/
def topPairs (n : Nat) (T : Int) : List PyObj → List (Nat × PyObj)
  | [] => []
  | a :: rest =>
    if boxTrace? a = some T then (n, a) :: topPairs (n + 1) T rest
    else topPairs (n + 1) T rest

/-- The node variant of the first box with trace id `T`. -/
def firstTopVariant (T : Int) : List PyObj → Option Nat
  | [] => none
  | a :: rest =>
    match a with
    | .box _ t nd => if t = T then some (variantOf nd) else firstTopVariant T rest
    | _ => firstTopVariant T rest

/-- Every boxed argument carries a nonnegative trace id — true of every
box the system itself creates, since `TraceStack` issues ids starting
at `0`. -/
def boxTraceNonneg : PyObj → Bool
  | .box _ t _ => decide (0 ≤ t)
  | _ => true

/-! ## Concrete fixtures used by counterexamples and witnesses -/

/-- `box._value`-opacity probe: the payload of a raw value, and `99` for
any non-raw object (so a raw operation built on it can tell whether it
was handed a box). -/
def payloadOrOpaque : PyObj → Int
  | .raw _ p => p
  | _ => 99

/-- A sample raw operation: sums `payloadOrOpaque` over its positional
arguments into a fresh raw value (so its output reveals whether any box
reached it). -/
def sumOp : List PyObj → KW → PyObj :=
  fun args _ => .raw 0 (args.foldl (fun s a => s + payloadOrOpaque a) 0)

/-! ## Theorems -/

theorem box_bool_getval (rawTruth : Nat → Int → Bool) :
    ∀ x : PyObj, box_bool rawTruth (getval x) = box_bool rawTruth x
  | .raw _ _ => rfl
  | .box v _ _ => by
    have ih := box_bool_getval rawTruth v
    simp only [getval, box_bool]
    exact ih
  | .rootNode _ => rfl
  | .callNode _ _ _ _ _ _ => rfl

/-- C10: the truthiness of a box delegates to its wrapped value —
`bool(Box(v, t, n)) == bool(v)` for every value, trace id and node
(recursively, so it equals the truthiness of the underlying raw value
`getval v`): untraced branching on a boxed value follows the raw value. -/
theorem box_bool_delegates (rawTruth : Nat → Int → Bool) (v : PyObj) (t : Int) (n : PyObj) :
    box_bool rawTruth (.box v t n) = box_bool rawTruth v ∧
    box_bool rawTruth (.box v t n) = box_bool rawTruth (getval v) :=
  ⟨by simp [box_bool], by rw [box_bool_getval]; simp [box_bool]⟩

/-- C5 (amended): `new_box` fails with an error naming the offending type
exactly when `type(v)` has no registered wrapper, and succeeds for every
registered type; the round-trip `getval (new_box v t n) = v` holds for
every *non-box* `v`; `getval` recurses through nested boxes and returns a
non-box input unchanged.  (For box-typed `v` — which *is* registered,
since `Box.register` maps every box class to itself — the round-trip
fails; see the counterexample.) -/
theorem new_box_getval_spec (reg : Nat → Bool) (v : PyObj) (t : Int) (n : PyObj) :
    (type_registered reg v = false →
      new_box reg v t n = .error (.unsupported (typeName v))) ∧
    (type_registered reg v = true → new_box reg v t n = .ok (.box v t n)) ∧
    (isbox v = false → getval (PyObj.box v t n) = v) ∧
    (isbox v = false → getval v = v) ∧
    getval (PyObj.box v t n) = getval v := by
  refine ⟨fun h => by simp [new_box, h], fun h => by simp [new_box, h],
    fun h => ?_, fun h => ?_, rfl⟩
  · cases v <;> simp_all [isbox, getval]
  · cases v <;> simp_all [isbox, getval]

/-- Witness for `new_box_getval_spec`: with only raw type `0` registered,
wrapping a value of raw type `1` fails naming that type, wrapping a value
of raw type `0` succeeds, and the round-trip returns it. -/
theorem new_box_getval_spec_witness :
    new_box (fun ty => ty == 0) (.raw 1 7) 2 (.rootNode 0) =
      .error (.unsupported (typeName (.raw 1 7))) ∧
    new_box (fun ty => ty == 0) (.raw 0 7) 2 (.rootNode 0) =
      .ok (.box (.raw 0 7) 2 (.rootNode 0)) ∧
    getval (PyObj.box (.raw 0 7) 2 (.rootNode 0)) = .raw 0 7 :=
  ⟨(new_box_getval_spec (fun ty => ty == 0) (.raw 1 7) 2 (.rootNode 0)).1 (by decide),
   (new_box_getval_spec (fun ty => ty == 0) (.raw 0 7) 2 (.rootNode 0)).2.1 (by decide),
   (new_box_getval_spec (fun ty => ty == 0) (.raw 0 7) 2 (.rootNode 0)).2.2.1 (by decide)⟩

/-- C5 counterexample: box classes are themselves registered
(`Box.register` sets `Box.type_mappings[cls] = cls`), so `new_box`
accepts an already-boxed value — and `getval` then unwinds *both* boxes,
so `unwrap(wrap(v, t, n)) == v` fails for a registered (box-typed) `v`. -/
theorem new_box_roundtrip_cex :
    type_registered (fun _ => true) (PyObj.box (.raw 0 7) 0 (.rootNode 0)) = true ∧
    new_box (fun _ => true) (PyObj.box (.raw 0 7) 0 (.rootNode 0)) 1 (.rootNode 0) =
      .ok (.box (.box (.raw 0 7) 0 (.rootNode 0)) 1 (.rootNode 0)) ∧
    getval (PyObj.box (.box (.raw 0 7) 0 (.rootNode 0)) 1 (.rootNode 0)) = .raw 0 7 ∧
    PyObj.raw 0 7 ≠ PyObj.box (.raw 0 7) 0 (.rootNode 0) :=
  ⟨rfl, rfl, rfl, fun h => PyObj.noConfusion h⟩

/-- C1: evaluation of `trace` at a failing input.  The source's
`TraceStack.new_trace` is a generator-based context manager whose `yield`
is not wrapped in `try`/`finally`, so when the traced function raises,
`self.top -= 1` never runs: starting from `top = 5` the stack is left at
`6` after the failure propagates, while the normal path restores `5`. -/
theorem trace_top_leak_on_failure :
    trace (fun _ => true) (.rootNode 0) (fun _ => .error (.user "boom")) (.raw 0 0) 5 =
      (.error (.user "boom"), 6) ∧
    trace (fun _ => true) (.rootNode 0) (fun _ => .ok (.raw 0 3)) (.raw 0 0) 5 =
      (.ok ⟨.raw 0 3, none, true⟩, 5) :=
  ⟨rfl, rfl⟩

/-- C3 (amended): when `fun` completes, `trace` returns
`(result.value, result.node)` and no diagnostic if the result is a box of
this very trace; otherwise it emits the "output independent of input"
diagnostic and returns `(result, None)` with the *first component passed
through unchanged* — a non-box result carries no box, but a box from a
different trace is returned still boxed. -/
theorem trace_output_spec (reg : Nat → Bool) (start_node : PyObj)
    (f : PyObj → Except TraceErr PyObj) (x : PyObj) (top : Int) (e : PyObj)
    (hreg : type_registered reg x = true)
    (hf : f (.box x (top + 1) start_node) = .ok e) :
    (∀ v tr nd, e = .box v tr nd → tr = top + 1 →
      trace reg start_node f x top = (.ok ⟨v, some nd, false⟩, top)) ∧
    (∀ v tr nd, e = .box v tr nd → tr ≠ top + 1 →
      trace reg start_node f x top = (.ok ⟨.box v tr nd, none, true⟩, top)) ∧
    (isbox e = false →
      trace reg start_node f x top = (.ok ⟨e, none, true⟩, top)) := by
  have hx : new_box reg x (top + 1) start_node = .ok (.box x (top + 1) start_node) := by
    simp [new_box, hreg]
  refine ⟨?_, ?_, ?_⟩
  · intro v tr nd he htr
    subst he; subst htr
    simp [trace, new_trace, trace_body, hx, hf, Except.bind, pure, Except.pure]
  · intro v tr nd he htr
    subst he
    simp [trace, new_trace, trace_body, hx, hf, htr, Except.bind, pure, Except.pure]
  · intro he
    cases e <;>
      simp_all [isbox, trace, new_trace, trace_body, hx, hf, Except.bind, pure, Except.pure]

/-- Witness for `trace_output_spec`: tracing the identity function
returns the seed's value and the root node, with `top` restored. -/
theorem trace_output_spec_witness :
    trace (fun _ => true) (.rootNode 0) (fun b => .ok b) (.raw 0 0) 0 =
      (.ok ⟨.raw 0 0, some (.rootNode 0), false⟩, 0) := by
  have h := trace_output_spec (fun _ => true) (.rootNode 0) (fun b => .ok b) (.raw 0 0) 0
    (.box (.raw 0 0) 1 (.rootNode 0)) rfl rfl
  exact h.1 (.raw 0 0) 1 (.rootNode 0) rfl rfl

/-- C3 counterexample: a function returning a box of a *different* trace
(id `0`, while this trace has id `1`) makes `trace` return that box
unchanged as the first component — carrying a box, contrary to the
claim's "the first component carries no box". -/
theorem trace_independent_output_cex :
    trace (fun _ => true) (.rootNode 0)
        (fun _ => .ok (.box (.raw 0 7) 0 (.rootNode 3))) (.raw 0 0) 0 =
      (.ok ⟨.box (.raw 0 7) 0 (.rootNode 3), none, true⟩, 0) ∧
    isbox (.box (.raw 0 7) 0 (.rootNode 3)) = true :=
  ⟨rfl, rfl⟩

/-! ### Characterization of the multi-trace argument resolver -/

theorem neg_one_le_maxBoxTrace (l : List PyObj) : -1 ≤ maxBoxTrace l := by
  induction l with
  | nil => simp [maxBoxTrace]
  | cons a rest ih =>
    cases a with
    | box v t nd =>
      simpa [maxBoxTrace, boxTrace?] using le_max_of_le_right ih
    | raw ty p => simpa [maxBoxTrace, boxTrace?] using ih
    | rootNode va => simpa [maxBoxTrace, boxTrace?] using ih
    | callNode va val avs kw ans ps => simpa [maxBoxTrace, boxTrace?] using ih

theorem maxBoxTrace_cons_box (v : PyObj) (t : Int) (nd : PyObj) (rest : List PyObj) :
    maxBoxTrace (PyObj.box v t nd :: rest) = max t (maxBoxTrace rest) := by
  simp [maxBoxTrace, boxTrace?]

theorem topPairs_nil_of_lt {T : Int} {l : List PyObj} (h : maxBoxTrace l < T) :
    ∀ n, topPairs n T l = [] := by
  induction l with
  | nil => intro n; simp [topPairs]
  | cons a rest ih =>
    intro n
    cases a with
    | box v t nd =>
      rw [maxBoxTrace_cons_box] at h
      obtain ⟨h1, h2⟩ := max_lt_iff.mp h
      simp [topPairs, boxTrace?, ne_of_lt h1, ih h2]
    | raw ty p =>
      simp only [maxBoxTrace, boxTrace?] at h
      simp [topPairs, boxTrace?, ih h]
    | rootNode va =>
      simp only [maxBoxTrace, boxTrace?] at h
      simp [topPairs, boxTrace?, ih h]
    | callNode va val avs kw ans ps =>
      simp only [maxBoxTrace, boxTrace?] at h
      simp [topPairs, boxTrace?, ih h]

/-- The loop of the resolver computes exactly the claim's description:
given a running state with best trace `tt ≥ -1`, it returns the pairs at
the maximum trace of the remaining arguments when that maximum beats
`tt`, appends the pairs tied with `tt` when it equals `tt`, and leaves
the state alone otherwise. -/
theorem findTopAux_eq :
    ∀ (rest : List PyObj) (n : Nat) (bx : List (Nat × PyObj)) (tt : Int) (ty : Option Nat),
      -1 ≤ tt →
      findTopAux rest n (bx, tt, ty) =
        if tt < maxBoxTrace rest then
          (topPairs n (maxBoxTrace rest) rest, maxBoxTrace rest,
            firstTopVariant (maxBoxTrace rest) rest)
        else if maxBoxTrace rest = tt then
          (bx ++ topPairs n tt rest, tt, ty)
        else (bx, tt, ty) := by
  intro rest
  induction rest with
  | nil =>
    intro n bx tt ty htt
    simp only [findTopAux, maxBoxTrace, topPairs]
    rw [if_neg (by omega)]
    by_cases h2 : (-1 : Int) = tt
    · rw [if_pos h2]; simp
    · rw [if_neg h2]
  | cons a rest ih =>
    intro n bx tt ty htt
    cases a with
    | box v t nd =>
      have hM := neg_one_le_maxBoxTrace rest
      have hcons : ∀ T : Int, topPairs n T (PyObj.box v t nd :: rest) =
          if t = T then (n, PyObj.box v t nd) :: topPairs (n + 1) T rest
          else topPairs (n + 1) T rest := by
        intro T; simp [topPairs, boxTrace?]
      have hfirst : ∀ T : Int, firstTopVariant T (PyObj.box v t nd :: rest) =
          if t = T then some (variantOf nd) else firstTopVariant T rest := by
        intro T; simp [firstTopVariant]
      simp only [findTopAux]
      rw [maxBoxTrace_cons_box]
      rcases le_or_lt t (maxBoxTrace rest) with hle | hlt
      · rw [max_eq_right hle]
        by_cases h1 : tt < t
        · rw [if_pos h1, ih (n + 1) [(n, PyObj.box v t nd)] t (some (variantOf nd)) (by omega)]
          rcases eq_or_lt_of_le hle with heq | hlt2
          · rw [← heq, if_neg (lt_irrefl t), if_pos rfl, if_pos h1, hcons, hfirst,
              if_pos rfl, if_pos rfl]
            simp
          · rw [if_pos hlt2, if_pos (lt_trans h1 hlt2), hcons, hfirst,
              if_neg (ne_of_lt hlt2), if_neg (ne_of_lt hlt2)]
        · by_cases h2 : t = tt
          · subst h2
            rw [if_neg h1, if_pos rfl, ih (n + 1) (bx ++ [(n, PyObj.box v t nd)]) t ty htt]
            rcases eq_or_lt_of_le hle with heq | hlt2
            · rw [← heq, if_neg (lt_irrefl t), if_pos rfl, if_neg (lt_irrefl t),
                if_pos rfl, hcons, if_pos rfl]
              simp
            · rw [if_pos hlt2, if_pos hlt2, hcons, hfirst,
                if_neg (ne_of_lt hlt2), if_neg (ne_of_lt hlt2)]
          · have h3 : t < tt := by omega
            rw [if_neg h1, if_neg h2, ih (n + 1) bx tt ty htt]
            by_cases h4 : tt < maxBoxTrace rest
            · have hne : t ≠ maxBoxTrace rest := by omega
              rw [if_pos h4, if_pos h4, hcons, hfirst, if_neg hne, if_neg hne]
            · by_cases h5 : maxBoxTrace rest = tt
              · rw [if_neg h4, if_pos h5, if_neg h4, if_pos h5, hcons, if_neg h2]
              · rw [if_neg h4, if_neg h5, if_neg h4, if_neg h5]
      · rw [max_eq_left (le_of_lt hlt)]
        by_cases h1 : tt < t
        · rw [if_pos h1, ih (n + 1) [(n, PyObj.box v t nd)] t (some (variantOf nd)) (by omega),
            if_neg (by omega), if_neg (by omega), if_pos h1, hcons, hfirst,
            if_pos rfl, if_pos rfl, topPairs_nil_of_lt hlt]
        · by_cases h2 : t = tt
          · subst h2
            rw [if_neg h1, if_pos rfl, ih (n + 1) (bx ++ [(n, PyObj.box v t nd)]) t ty htt,
              if_neg (by omega), if_neg (by omega), if_neg (lt_irrefl t), if_pos rfl,
              hcons, if_pos rfl, topPairs_nil_of_lt hlt]
          · have h3 : t < tt := by omega
            rw [if_neg h1, if_neg h2, ih (n + 1) bx tt ty htt,
              if_neg (by omega), if_neg (by omega), if_neg (by omega), if_neg h2]
    | raw ty0 p0 =>
      simp only [findTopAux]
      rw [ih (n + 1) bx tt ty htt]
      simp only [maxBoxTrace, boxTrace?, topPairs, firstTopVariant]
      split_ifs <;> simp_all [topPairs, firstTopVariant, boxTrace?]
    | rootNode va =>
      simp only [findTopAux]
      rw [ih (n + 1) bx tt ty htt]
      simp only [maxBoxTrace, boxTrace?, topPairs, firstTopVariant]
      split_ifs <;> simp_all [topPairs, firstTopVariant, boxTrace?]
    | callNode va val avs kw ans ps =>
      simp only [findTopAux]
      rw [ih (n + 1) bx tt ty htt]
      simp only [maxBoxTrace, boxTrace?, topPairs, firstTopVariant]
      split_ifs <;> simp_all [topPairs, firstTopVariant, boxTrace?]

/-- `find_top_boxed_args` against the claim's description: the pairs are
exactly those at the maximum boxed trace (in order), the returned trace
is that maximum (`-1` when nothing is boxed), and the returned node class
is the variant of the first such box when the maximum is a real trace. -/
theorem find_top_boxed_args_eq (args : List PyObj) :
    find_top_boxed_args args =
      if -1 < maxBoxTrace args then
        (topPairs 0 (maxBoxTrace args) args, maxBoxTrace args,
          firstTopVariant (maxBoxTrace args) args)
      else (topPairs 0 (-1) args, -1, none) := by
  have h := findTopAux_eq args 0 [] (-1) none (le_refl _)
  have hM := neg_one_le_maxBoxTrace args
  rw [find_top_boxed_args, h]
  by_cases h1 : -1 < maxBoxTrace args
  · rw [if_pos h1, if_pos h1]
  · have h2 : maxBoxTrace args = -1 := by omega
    rw [if_neg h1, if_pos h2, if_neg h1]
    simp

theorem mem_topPairs {T : Int} :
    ∀ (l : List PyObj) (n : Nat) (p : Nat × PyObj),
      p ∈ topPairs n T l → boxTrace? p.2 = some T := by
  intro l
  induction l with
  | nil => intro n p h; simp [topPairs] at h
  | cons a rest ih =>
    intro n p h
    by_cases ha : boxTrace? a = some T
    · rw [topPairs, if_pos ha] at h
      rcases List.mem_cons.mp h with h | h
      · rw [h]; exact ha
      · exact ih (n + 1) p h
    · rw [topPairs, if_neg ha] at h
      exact ih (n + 1) p h

theorem mem_topPairs_snd_mem {T : Int} :
    ∀ (l : List PyObj) (n : Nat) (p : Nat × PyObj), p ∈ topPairs n T l → p.2 ∈ l := by
  intro l
  induction l with
  | nil => intro n p h; simp [topPairs] at h
  | cons a rest ih =>
    intro n p h
    by_cases ha : boxTrace? a = some T
    · rw [topPairs, if_pos ha] at h
      rcases List.mem_cons.mp h with h | h
      · rw [h]; exact List.mem_cons_self ..
      · exact List.mem_cons_of_mem _ (ih (n + 1) p h)
    · rw [topPairs, if_neg ha] at h
      exact List.mem_cons_of_mem _ (ih (n + 1) p h)

theorem firstTopVariant_of_topPairs_cons {T : Int} :
    ∀ (l : List PyObj) (n : Nat) (p : Nat × PyObj) (rest' : List (Nat × PyObj)),
      topPairs n T l = p :: rest' →
      firstTopVariant T l = some (variantOf (boxNode p.2)) := by
  intro l
  induction l with
  | nil => intro n p r h; simp [topPairs] at h
  | cons a rest ih =>
    intro n p r h
    cases a with
    | box v t nd =>
      by_cases ht : t = T
      · rw [topPairs, if_pos (by simp [boxTrace?, ht])] at h
        obtain ⟨hp, _⟩ := List.cons.injEq .. ▸ h
        rw [firstTopVariant, if_pos ht, ← hp]
        simp [boxNode]
      · rw [topPairs, if_neg (by simp [boxTrace?, ht])] at h
        rw [firstTopVariant, if_neg ht]
        exact ih (n + 1) p r h
    | raw ty0 p0 =>
      rw [topPairs, if_neg (by simp [boxTrace?])] at h
      simpa [firstTopVariant] using ih (n + 1) p r h
    | rootNode va =>
      rw [topPairs, if_neg (by simp [boxTrace?])] at h
      simpa [firstTopVariant] using ih (n + 1) p r h
    | callNode va val avs kw ans ps =>
      rw [topPairs, if_neg (by simp [boxTrace?])] at h
      simpa [firstTopVariant] using ih (n + 1) p r h

/-- C4: for every positional argument list (whose boxes all carry
nonnegative trace ids, as every box issued by the system does), the
resolver returns exactly the `(position, box)` pairs whose trace id
equals the maximum trace id among all boxed arguments, in left-to-right
position order, together with that maximum (`-1` when no argument is
boxed); and when the tracked list is nonempty and its boxes share node
variant `v`, the returned node type is `v`.  Boxed arguments of strictly
smaller trace id are excluded (they are not in `topPairs` of the
maximum). -/
theorem find_top_boxed_args_correct (args : List PyObj)
    (hpos : args.all boxTraceNonneg = true) :
    (find_top_boxed_args args).1 = topPairs 0 (maxBoxTrace args) args ∧
    (find_top_boxed_args args).2.1 = maxBoxTrace args ∧
    ∀ v, (find_top_boxed_args args).1 ≠ [] →
      (∀ p ∈ (find_top_boxed_args args).1, variantOf (boxNode p.2) = v) →
      (find_top_boxed_args args).2.2 = some v := by
  rw [find_top_boxed_args_eq args]
  by_cases h1 : -1 < maxBoxTrace args
  · rw [if_pos h1]
    refine ⟨rfl, rfl, ?_⟩
    intro v hne hall
    match htp : topPairs 0 (maxBoxTrace args) args with
    | [] => exact absurd htp hne
    | p :: rest' =>
      rw [firstTopVariant_of_topPairs_cons args 0 p rest' htp]
      rw [hall p (by rw [htp]; exact List.mem_cons_self ..)]
  · have h2 : maxBoxTrace args = -1 := by
      have := neg_one_le_maxBoxTrace args
      omega
    rw [if_neg h1]
    refine ⟨by rw [h2], by rw [h2], ?_⟩
    intro v hne hall
    exfalso
    match htp : topPairs 0 (-1 : Int) args with
    | [] => exact hne htp
    | p :: rest' =>
      have hmem : p ∈ topPairs 0 (-1 : Int) args := by
        rw [htp]; exact List.mem_cons_self ..
      have htr := mem_topPairs args 0 p hmem
      -- a box with trace `-1` contradicts `hpos`
      have hmem2 : p.2 ∈ args := mem_topPairs_snd_mem args 0 p hmem
      have hnn := List.all_eq_true.mp hpos p.2 hmem2
      cases hp2 : p.2 <;> simp_all [boxTraceNonneg, boxTrace?]

/-! ### The primitive wrapper's paths -/

theorem findTopAux_no_boxes :
    ∀ (rest : List PyObj) (n : Nat) (st : List (Nat × PyObj) × Int × Option Nat),
      (∀ a ∈ rest, isbox a = false) → findTopAux rest n st = st := by
  intro rest
  induction rest with
  | nil => intro n st _; rfl
  | cons a rest ih =>
    intro n ⟨bx, tt, ty⟩ h
    cases a with
    | box v t nd => exact absurd (h _ (List.mem_cons_self ..)) (by simp [isbox])
    | raw ty0 p0 => exact ih (n + 1) _ fun b hb => h b (List.mem_cons_of_mem _ hb)
    | rootNode va => exact ih (n + 1) _ fun b hb => h b (List.mem_cons_of_mem _ hb)
    | callNode va val avs kw ans ps =>
      exact ih (n + 1) _ fun b hb => h b (List.mem_cons_of_mem _ hb)

theorem find_top_boxed_args_no_boxes {args : List PyObj}
    (h : ∀ a ∈ args, isbox a = false) : find_top_boxed_args args = ([], -1, none) :=
  findTopAux_no_boxes args 0 ([], -1, none) h

/-- The untracked branch of `f_wrapped`: with no boxed argument the raw
function's result is returned as is, with no node and no box built. -/
theorem f_wrapped_raw_path (reg ntr : Nat → Bool) (f_raw : List PyObj → KW → PyObj)
    (args : List PyObj) (kwargs : KW) (hb : (find_top_boxed_args args).1 = []) :
    f_wrapped reg ntr f_raw args kwargs = .ok ⟨f_raw args kwargs, [], 0⟩ := by
  rw [f_wrapped.eq_def]
  split
  · rfl
  · next head tail heq => rw [hb] at heq; exact List.noConfusion heq

/-- The notrace branch of `f_wrapped`: the wrapper re-enters itself on the
unwrapped arguments. -/
theorem f_wrapped_notrace_eq (reg ntr : Nat → Bool) (f_raw : List PyObj → KW → PyObj)
    (args : List PyObj) (kwargs : KW) (v : Nat)
    (hb : (find_top_boxed_args args).1 ≠ [])
    (hv : (find_top_boxed_args args).2.2 = some v)
    (hntr : ntr v = true) :
    f_wrapped reg ntr f_raw args kwargs = f_wrapped reg ntr f_raw (argvalsOf args) kwargs := by
  rw [f_wrapped.eq_def]
  split
  · next heq => exact absurd heq hb
  · next head tail heq => simp [hv, hntr]

/-- The tracked branch of `f_wrapped`: the answer is the result of the
*recursive* wrapper call on `argvals`; one node is built at this level and
the answer is boxed at the resolved trace id. -/
theorem f_wrapped_tracked_eq (reg ntr : Nat → Bool) (f_raw : List PyObj → KW → PyObj)
    (args : List PyObj) (kwargs : KW) (v : Nat)
    (hb : (find_top_boxed_args args).1 ≠ [])
    (hv : (find_top_boxed_args args).2.2 = some v)
    (hntr : ntr v = false) :
    f_wrapped reg ntr f_raw args kwargs =
      match f_wrapped reg ntr f_raw (argvalsOf args) kwargs with
      | .error e => .error e
      | .ok sub =>
        match new_box reg sub.ans (find_top_boxed_args args).2.1
            (trackedNode v sub.ans args kwargs) with
        | .error e => .error e
        | .ok out =>
          .ok ⟨out, sub.nodes ++ [trackedNode v sub.ans args kwargs], sub.boxes + 1⟩ := by
  rw [f_wrapped.eq_def]
  split
  · next heq => exact absurd heq hb
  · next head tail heq => simp [hv, hntr]

/-- The degenerate branch of `f_wrapped` (no node class resolved, which
requires a box with the sentinel trace `-1`): the answer is computed and
then `None(...)` raises. -/
theorem f_wrapped_none_eq (reg ntr : Nat → Bool) (f_raw : List PyObj → KW → PyObj)
    (args : List PyObj) (kwargs : KW)
    (hb : (find_top_boxed_args args).1 ≠ [])
    (hv : (find_top_boxed_args args).2.2 = none) :
    f_wrapped reg ntr f_raw args kwargs =
      match f_wrapped reg ntr f_raw (argvalsOf args) kwargs with
      | .error e => .error e
      | .ok _ => .error (.typeError "node constructor is None") := by
  rw [f_wrapped.eq_def]
  split
  · next heq => exact absurd heq hb
  · next head tail heq => simp [hv]

/-- C7: the zero-overhead path — with no box among the positional
arguments the wrapped function returns exactly the raw function's result
on the same arguments and keyword arguments, allocating no node and
constructing no box. -/
theorem f_wrapped_zero_overhead (reg ntr : Nat → Bool) (f_raw : List PyObj → KW → PyObj)
    (args : List PyObj) (kwargs : KW) (h : ∀ a ∈ args, isbox a = false) :
    f_wrapped reg ntr f_raw args kwargs = .ok ⟨f_raw args kwargs, [], 0⟩ :=
  f_wrapped_raw_path reg ntr f_raw args kwargs
    (by rw [find_top_boxed_args_no_boxes h])

/-- Witness for `f_wrapped_zero_overhead` at a concrete box-free call. -/
theorem f_wrapped_zero_overhead_witness :
    f_wrapped (fun _ => true) (fun _ => false) sumOp [.raw 0 4, .raw 0 5] [] =
      .ok ⟨sumOp [.raw 0 4, .raw 0 5] [], [], 0⟩ :=
  f_wrapped_zero_overhead (fun _ => true) (fun _ => false) sumOp
    [.raw 0 4, .raw 0 5] [] (by decide)

/-- Every node an `f_wrapped` call constructs belongs to a variant for
which this primitive is *not* registered notrace. -/
theorem f_wrapped_nodes_respect_notrace (reg ntr : Nat → Bool)
    (f_raw : List PyObj → KW → PyObj) :
    ∀ (N : Nat) (args : List PyObj), argsSize args ≤ N →
      ∀ (kwargs : KW) (r : WrapOut),
        f_wrapped reg ntr f_raw args kwargs = .ok r →
        ∀ nd ∈ r.nodes, ntr (variantOf nd) = false := by
  intro N
  induction N with
  | zero =>
    intro args hle kwargs r hrun nd hnd
    match args, hle with
    | [], _ =>
      rw [f_wrapped_raw_path reg ntr f_raw [] kwargs rfl] at hrun
      cases hrun
      simp at hnd
    | a :: rest, hle =>
      exfalso
      have := objSize_pos a
      have : 0 < argsSize (a :: rest) := by
        simp only [argsSize, List.map, List.sum_cons]
        omega
      omega
  | succ N ihN =>
    intro args hle kwargs r hrun nd hnd
    by_cases hb : (find_top_boxed_args args).1 = []
    · rw [f_wrapped_raw_path reg ntr f_raw args kwargs hb] at hrun
      cases hrun
      simp at hnd
    · have hlt : argsSize (argvalsOf args) < argsSize args := argsSize_argvals_lt hb
      have hle2 : argsSize (argvalsOf args) ≤ N := by omega
      cases hv : (find_top_boxed_args args).2.2 with
      | none =>
        rw [f_wrapped_none_eq reg ntr f_raw args kwargs hb hv] at hrun
        cases hsub : f_wrapped reg ntr f_raw (argvalsOf args) kwargs <;>
          rw [hsub] at hrun <;> simp at hrun
      | some v =>
        by_cases hntr : ntr v = true
        · rw [f_wrapped_notrace_eq reg ntr f_raw args kwargs v hb hv hntr] at hrun
          exact ihN (argvalsOf args) hle2 kwargs r hrun nd hnd
        · have hntr' : ntr v = false := by simpa using hntr
          rw [f_wrapped_tracked_eq reg ntr f_raw args kwargs v hb hv hntr'] at hrun
          cases hsub : f_wrapped reg ntr f_raw (argvalsOf args) kwargs with
          | error e => rw [hsub] at hrun; simp at hrun
          | ok sub =>
            simp only [hsub] at hrun
            cases hnb : new_box reg sub.ans (find_top_boxed_args args).2.1
                (trackedNode v sub.ans args kwargs) with
            | error e => simp only [hnb] at hrun; exact Except.noConfusion hrun
            | ok out =>
              simp only [hnb, Except.ok.injEq] at hrun
              rw [← hrun] at hnd
              simp only [List.mem_append, List.mem_singleton] at hnd
              rcases hnd with hnd | hnd
              · exact ihN (argvalsOf args) hle2 kwargs sub hsub nd hnd
              · rw [hnd]
                simpa [trackedNode, variantOf] using hntr'

/-- C9: an operation registered notrace for the resolved variant builds
no node of that variant anywhere in the call and returns through the
direct (unwrapped) computation path. -/
theorem f_wrapped_notrace_exemption (reg ntr : Nat → Bool)
    (f_raw : List PyObj → KW → PyObj) (args : List PyObj) (kwargs : KW) (v : Nat)
    (hb : (find_top_boxed_args args).1 ≠ [])
    (hv : (find_top_boxed_args args).2.2 = some v)
    (hntr : ntr v = true) :
    f_wrapped reg ntr f_raw args kwargs = f_wrapped reg ntr f_raw (argvalsOf args) kwargs ∧
    ∀ r, f_wrapped reg ntr f_raw args kwargs = .ok r →
      ∀ nd ∈ r.nodes, variantOf nd ≠ v := by
  refine ⟨f_wrapped_notrace_eq reg ntr f_raw args kwargs v hb hv hntr, ?_⟩
  intro r hr nd hnd hcontra
  have h := f_wrapped_nodes_respect_notrace reg ntr f_raw (argsSize args) args
    (le_refl _) kwargs r hr nd hnd
  rw [hcontra, hntr] at h
  exact Bool.noConfusion h

/-- Witness for `f_wrapped_notrace_exemption`: a primitive registered
notrace for variant `5`, called on a variant-5 box, returns through the
unwrapped path. -/
theorem f_wrapped_notrace_exemption_witness :
    f_wrapped (fun _ => true) (fun x => x == 5) sumOp
        [.box (.raw 0 2) 0 (.rootNode 5)] [] =
      f_wrapped (fun _ => true) (fun x => x == 5) sumOp
        (argvalsOf [.box (.raw 0 2) 0 (.rootNode 5)]) [] :=
  (f_wrapped_notrace_exemption (fun _ => true) (fun x => x == 5) sumOp
    [.box (.raw 0 2) 0 (.rootNode 5)] [] 5
    (by simp [find_top_boxed_args, findTopAux]) rfl rfl).1

theorem new_box_ok {reg : Nat → Bool} {v : PyObj} {t : Int} {n out : PyObj}
    (h : new_box reg v t n = .ok out) : out = .box v t n := by
  unfold new_box at h
  split at h
  · exact (Except.ok.injEq .. ▸ h).symm
  · exact Except.noConfusion h

/-- C8: the node built by the tracked path has `tracked_argnums` and
`parents` of the same length, positionally aligned with the resolver's
stable left-to-right tracked list: `parents[k]` is the node of the box
found at argument position `tracked_argnums[k]`. -/
theorem f_wrapped_node_alignment (reg ntr : Nat → Bool)
    (f_raw : List PyObj → KW → PyObj) (args : List PyObj) (kwargs : KW)
    (v : Nat) (r : WrapOut) (a : PyObj) (tr : Int) (nd : PyObj)
    (hb : (find_top_boxed_args args).1 ≠ [])
    (hv : (find_top_boxed_args args).2.2 = some v)
    (hntr : ntr v = false)
    (hrun : f_wrapped reg ntr f_raw args kwargs = .ok r)
    (hans : r.ans = .box a tr nd) :
    nodeArgnums nd = (find_top_boxed_args args).1.map Prod.fst ∧
    nodeParents nd = (find_top_boxed_args args).1.map (fun p => boxNode p.2) ∧
    (nodeArgnums nd).length = (nodeParents nd).length ∧
    ∀ (k ak : Nat), (nodeArgnums nd)[k]? = some ak →
      ∃ b, args[ak]? = some b ∧ isbox b = true ∧
        (nodeParents nd)[k]? = some (boxNode b) := by
  rw [f_wrapped_tracked_eq reg ntr f_raw args kwargs v hb hv hntr] at hrun
  cases hsub : f_wrapped reg ntr f_raw (argvalsOf args) kwargs with
  | error e => rw [hsub] at hrun; simp at hrun
  | ok sub =>
    simp only [hsub] at hrun
    cases hnb : new_box reg sub.ans (find_top_boxed_args args).2.1
        (trackedNode v sub.ans args kwargs) with
    | error e => simp only [hnb] at hrun; exact Except.noConfusion hrun
    | ok out =>
      simp only [hnb, Except.ok.injEq] at hrun
      have hout := new_box_ok hnb
      rw [← hrun] at hans
      rw [hout] at hans
      simp only [PyObj.box.injEq] at hans
      obtain ⟨-, -, hnd⟩ := hans
      rw [← hnd]
      refine ⟨by simp [trackedNode, nodeArgnums], by simp [trackedNode, nodeParents],
        by simp [trackedNode, nodeArgnums, nodeParents], ?_⟩
      intro k ak hk
      simp only [trackedNode, nodeArgnums, List.getElem?_map] at hk
      obtain ⟨p, hp, hp1⟩ := Option.map_eq_some'.mp hk
      have hmem : p ∈ (find_top_boxed_args args).1 := List.getElem?_mem hp
      obtain ⟨hget, hbox⟩ := find_top_boxed_args_mem args p hmem
      refine ⟨p.2, by rw [← hp1]; exact hget, hbox, ?_⟩
      simp [trackedNode, nodeParents, List.getElem?_map, hp]

/-- Witness for `f_wrapped_node_alignment` at a one-box call whose
result node is computed explicitly. -/
theorem f_wrapped_node_alignment_witness :
    nodeArgnums (PyObj.callNode 5 (.raw 0 7) [.raw 0 1] [] [0] [.rootNode 5]) =
      (find_top_boxed_args [.box (.raw 0 1) 0 (.rootNode 5)]).1.map Prod.fst ∧
    nodeParents (PyObj.callNode 5 (.raw 0 7) [.raw 0 1] [] [0] [.rootNode 5]) =
      (find_top_boxed_args [.box (.raw 0 1) 0 (.rootNode 5)]).1.map (fun p => boxNode p.2) ∧
    (nodeArgnums (PyObj.callNode 5 (.raw 0 7) [.raw 0 1] [] [0] [.rootNode 5])).length =
      (nodeParents (PyObj.callNode 5 (.raw 0 7) [.raw 0 1] [] [0] [.rootNode 5])).length ∧
    ∀ (k ak : Nat),
      (nodeArgnums (PyObj.callNode 5 (.raw 0 7) [.raw 0 1] [] [0] [.rootNode 5]))[k]? = some ak →
      ∃ b, [PyObj.box (.raw 0 1) 0 (.rootNode 5)][ak]? = some b ∧ isbox b = true ∧
        (nodeParents (PyObj.callNode 5 (.raw 0 7) [.raw 0 1] [] [0] [.rootNode 5]))[k]? =
          some (boxNode b) :=
  f_wrapped_node_alignment (fun _ => true) (fun _ => false) (fun _ _ => .raw 0 7)
    [.box (.raw 0 1) 0 (.rootNode 5)] [] 5
    ⟨.box (.raw 0 7) 0 (.callNode 5 (.raw 0 7) [.raw 0 1] [] [0] [.rootNode 5]),
      [.callNode 5 (.raw 0 7) [.raw 0 1] [] [0] [.rootNode 5]], 1⟩
    (.raw 0 7) 0 (.callNode 5 (.raw 0 7) [.raw 0 1] [] [0] [.rootNode 5])
    (by simp [find_top_boxed_args, findTopAux]) rfl rfl
    (by simp [f_wrapped, find_top_boxed_args, findTopAux, argvalsOf, subvals, boxVal,
      boxNode, new_box, type_registered, variantOf, trackedNode])
    rfl

/-- C2 (amended): in the tracked non-notrace path the answer is computed
by the *recursive* wrapper call `f_wrapped(*argvals, **kwargs)` — any
boxes remaining in `argvals` (from shallower traces) are themselves
intercepted there, building further nodes at their own traces, rather
than being passed opaquely to the raw operation — one node is then built
at this level via the variant's constructor, and the answer is wrapped at
the resolved trace id.  When `argvals` contains no box the recursion
reduces to the raw call `f(*argvals, **kwargs)` and exactly one node is
built in total. -/
theorem f_wrapped_tracked_recursive (reg ntr : Nat → Bool)
    (f_raw : List PyObj → KW → PyObj) (args : List PyObj) (kwargs : KW) (v : Nat)
    (hb : (find_top_boxed_args args).1 ≠ [])
    (hv : (find_top_boxed_args args).2.2 = some v)
    (hntr : ntr v = false) :
    (f_wrapped reg ntr f_raw args kwargs =
      match f_wrapped reg ntr f_raw (argvalsOf args) kwargs with
      | .error e => .error e
      | .ok sub =>
        match new_box reg sub.ans (find_top_boxed_args args).2.1
            (trackedNode v sub.ans args kwargs) with
        | .error e => .error e
        | .ok out =>
          .ok ⟨out, sub.nodes ++ [trackedNode v sub.ans args kwargs], sub.boxes + 1⟩) ∧
    ((∀ a ∈ argvalsOf args, isbox a = false) →
      f_wrapped reg ntr f_raw (argvalsOf args) kwargs =
        .ok ⟨f_raw (argvalsOf args) kwargs, [], 0⟩) ∧
    (∀ out, (∀ a ∈ argvalsOf args, isbox a = false) →
      new_box reg (f_raw (argvalsOf args) kwargs) (find_top_boxed_args args).2.1
          (trackedNode v (f_raw (argvalsOf args) kwargs) args kwargs) = .ok out →
      f_wrapped reg ntr f_raw args kwargs =
        .ok ⟨out, [trackedNode v (f_raw (argvalsOf args) kwargs) args kwargs], 1⟩) := by
  refine ⟨f_wrapped_tracked_eq reg ntr f_raw args kwargs v hb hv hntr,
    fun h => f_wrapped_zero_overhead reg ntr f_raw (argvalsOf args) kwargs h, ?_⟩
  intro out h hnb
  rw [f_wrapped_tracked_eq reg ntr f_raw args kwargs v hb hv hntr,
    f_wrapped_zero_overhead reg ntr f_raw (argvalsOf args) kwargs h]
  simp [hnb]

/-- Witness for `f_wrapped_tracked_recursive` at a one-box call. -/
theorem f_wrapped_tracked_recursive_witness :
    f_wrapped (fun _ => true) (fun _ => false) sumOp [.box (.raw 0 2) 0 (.rootNode 5)] [] =
      .ok ⟨.box (sumOp (argvalsOf [.box (.raw 0 2) 0 (.rootNode 5)]) [])
            (find_top_boxed_args [.box (.raw 0 2) 0 (.rootNode 5)]).2.1
            (trackedNode 5 (sumOp (argvalsOf [.box (.raw 0 2) 0 (.rootNode 5)]) [])
              [.box (.raw 0 2) 0 (.rootNode 5)] []),
          [trackedNode 5 (sumOp (argvalsOf [.box (.raw 0 2) 0 (.rootNode 5)]) [])
            [.box (.raw 0 2) 0 (.rootNode 5)] []], 1⟩ :=
  (f_wrapped_tracked_recursive (fun _ => true) (fun _ => false) sumOp
    [.box (.raw 0 2) 0 (.rootNode 5)] [] 5
    (by simp [find_top_boxed_args, findTopAux]) rfl rfl).2.2
    (.box (sumOp (argvalsOf [.box (.raw 0 2) 0 (.rootNode 5)]) [])
      (find_top_boxed_args [.box (.raw 0 2) 0 (.rootNode 5)]).2.1
      (trackedNode 5 (sumOp (argvalsOf [.box (.raw 0 2) 0 (.rootNode 5)]) [])
        [.box (.raw 0 2) 0 (.rootNode 5)] []))
    (by simp [argvalsOf, find_top_boxed_args, findTopAux, subvals, boxVal, isbox])
    (by simp [new_box, type_registered, sumOp, payloadOrOpaque, argvalsOf,
      find_top_boxed_args, findTopAux, subvals, boxVal])

/-- C2 counterexample: with a deeper and a shallower box among the
arguments, the wrapper builds *two* nodes (the claim says exactly one)
and its answer wraps the result of the recursive interception — the raw
value underneath is `3` — while applying the raw operation to `argvals`
with the outer box passed through opaquely would give `100`. -/
theorem f_wrapped_nested_trace_cex :
    (f_wrapped (fun _ => true) (fun _ => false) sumOp
        [.box (.raw 0 1) 1 (.rootNode 0), .box (.raw 0 2) 0 (.rootNode 0)] []).map
        (fun r => (r.nodes.length, getval r.ans)) = .ok (2, .raw 0 3) ∧
    sumOp (argvalsOf [.box (.raw 0 1) 1 (.rootNode 0), .box (.raw 0 2) 0 (.rootNode 0)]) [] =
      .raw 0 100 := by
  constructor
  · simp [f_wrapped, find_top_boxed_args, findTopAux, argvalsOf, subvals, boxVal, boxNode,
      new_box, type_registered, variantOf, trackedNode, sumOp, payloadOrOpaque, getval,
      Except.map]
  · simp [argvalsOf, find_top_boxed_args, findTopAux, subvals, boxVal, sumOp, payloadOrOpaque]

/-- Witness for `find_top_boxed_args_correct`: two boxes at trace `1`
beat one at trace `0`; the resolver returns exactly the trace-1 pairs, the
maximum `1`, and their shared variant `7`. -/
theorem find_top_boxed_args_correct_witness :
    (find_top_boxed_args
        [.box (.raw 0 1) 0 (.rootNode 7), .raw 0 5,
          .box (.raw 0 2) 1 (.rootNode 7), .box (.raw 0 3) 1 (.rootNode 7)]).1 =
      topPairs 0
        (maxBoxTrace
          [.box (.raw 0 1) 0 (.rootNode 7), .raw 0 5,
            .box (.raw 0 2) 1 (.rootNode 7), .box (.raw 0 3) 1 (.rootNode 7)])
        [.box (.raw 0 1) 0 (.rootNode 7), .raw 0 5,
          .box (.raw 0 2) 1 (.rootNode 7), .box (.raw 0 3) 1 (.rootNode 7)] ∧
    (find_top_boxed_args
        [.box (.raw 0 1) 0 (.rootNode 7), .raw 0 5,
          .box (.raw 0 2) 1 (.rootNode 7), .box (.raw 0 3) 1 (.rootNode 7)]).2.1 =
      maxBoxTrace
        [.box (.raw 0 1) 0 (.rootNode 7), .raw 0 5,
          .box (.raw 0 2) 1 (.rootNode 7), .box (.raw 0 3) 1 (.rootNode 7)] ∧
    (find_top_boxed_args
        [.box (.raw 0 1) 0 (.rootNode 7), .raw 0 5,
          .box (.raw 0 2) 1 (.rootNode 7), .box (.raw 0 3) 1 (.rootNode 7)]).2.2 = some 7 := by
  have h := find_top_boxed_args_correct
    [.box (.raw 0 1) 0 (.rootNode 7), .raw 0 5,
      .box (.raw 0 2) 1 (.rootNode 7), .box (.raw 0 3) 1 (.rootNode 7)] (by decide)
  exact ⟨h.1, h.2.1, h.2.2 7 (by simp [find_top_boxed_args, findTopAux]) (by decide)⟩

/-! ### The unary-to-nary transform -/

theorem subvals_length {α : Type} (xs : List α) (pairs : List (Nat × α)) :
    (subvals xs pairs).length = xs.length := by
  induction pairs generalizing xs with
  | nil => rfl
  | cons p rest ih =>
    rw [show subvals xs (p :: rest) = subvals (xs.set p.1 p.2) rest from rfl,
      ih (xs.set p.1 p.2), List.length_set]

theorem subvals_getElem?_not_mem {α : Type} (xs : List α) (pairs : List (Nat × α)) (j : Nat)
    (h : ∀ p ∈ pairs, p.1 ≠ j) : (subvals xs pairs)[j]? = xs[j]? := by
  induction pairs generalizing xs with
  | nil => rfl
  | cons p rest ih =>
    rw [show subvals xs (p :: rest) = subvals (xs.set p.1 p.2) rest from rfl,
      ih (xs.set p.1 p.2) (fun q hq => h q (List.mem_cons_of_mem _ hq)),
      List.getElem?_set_ne (h p (List.mem_cons_self ..))]

theorem subvals_getElem?_mem {α : Type} (xs : List α) (pairs : List (Nat × α)) (i : Nat) (v : α)
    (hdist : pairs.Pairwise (fun p q => p.1 ≠ q.1))
    (hmem : (i, v) ∈ pairs) (hlen : i < xs.length) :
    (subvals xs pairs)[i]? = some v := by
  induction pairs generalizing xs with
  | nil => simp at hmem
  | cons p rest ih =>
    rw [show subvals xs (p :: rest) = subvals (xs.set p.1 p.2) rest from rfl]
    rcases List.mem_cons.mp hmem with heq | hmem'
    · have heq' : p = (i, v) := heq.symm
      subst heq'
      rw [subvals_getElem?_not_mem (xs.set i v) rest i
        (fun q hq => (List.rel_of_pairwise_cons hdist hq).symm)]
      exact List.getElem?_set_eq_of_lt v hlen
    · exact ih (xs.set p.1 p.2) hdist.of_cons hmem'
        (by rw [List.length_set]; exact hlen)

theorem selectList_spec {V : Type} (args : List V) (indices : List Nat)
    (h : ∀ i ∈ indices, i < args.length) :
    ∃ xs, selectList args indices = some xs ∧ xs.length = indices.length ∧
      ∀ k : Nat, xs[k]? = (indices[k]?).bind (fun i => args[i]?) := by
  induction indices with
  | nil => exact ⟨[], rfl, rfl, fun k => by cases k <;> simp⟩
  | cons i rest ih =>
    obtain ⟨xs, hsel, hlen, hk⟩ := ih (fun j hj => h j (List.mem_cons_of_mem _ hj))
    have hi : i < args.length := h i (List.mem_cons_self ..)
    refine ⟨args[i] :: xs, ?_, by simp [hlen], ?_⟩
    · rw [selectList, List.getElem?_eq_getElem hi, hsel]
      rfl
    · intro k
      cases k with
      | zero => simp [List.getElem?_eq_getElem hi]
      | succ k => simpa using hk k

theorem pairwise_ne_zip_fst {V : Type} (indices : List Nat) (xs : List V)
    (h : indices.Pairwise (fun a b => a ≠ b)) :
    (indices.zip xs).Pairwise (fun p q => p.1 ≠ q.1) := by
  induction indices generalizing xs with
  | nil => simp
  | cons i rest ih =>
    cases xs with
    | nil => simp
    | cons x xs =>
      rw [List.zip_cons_cons]
      refine List.Pairwise.cons ?_ (ih xs h.of_cons)
      intro q hq
      exact List.rel_of_pairwise_cons h (List.of_mem_zip hq).1

theorem zip_getElem?_eq {A B : Type} :
    ∀ (l1 : List A) (l2 : List B) (k : Nat) (a : A) (b : B),
      l1[k]? = some a → l2[k]? = some b → (l1.zip l2)[k]? = some (a, b) := by
  intro l1
  induction l1 with
  | nil => intro l2 k a b h _; simp at h
  | cons x l1 ih =>
    intro l2 k a b h1 h2
    cases l2 with
    | nil => simp at h2
    | cons y l2 =>
      cases k with
      | zero =>
        simp only [List.getElem?_cons_zero, Option.some_inj] at h1 h2
        simp [h1, h2]
      | succ k =>
        simp only [List.getElem?_cons_succ] at h1 h2
        simpa [List.zip_cons_cons] using ih l2 k a b h1 h2

/-- C6: the nary transform picks `x` as the argument at `argnum` (the
ordered tuple of arguments aligned with `argnum` for a collection) and
hands the substitution closure plus `x` to the unary operator; the
closure applied to any replacement calls `fun` with exactly the
position(s) `argnum` replaced (zip-substitution for a collection, with
in-range, duplicate-free indices) while every other positional argument
and the keyword arguments keep their original values. -/
theorem nary_f_spec {V K R S : Type} (fun_ : List V → K → R) (args : List V) (kwargs : K) :
    (∀ (i : Nat) (uop : (V → R) → V → S), i < args.length →
      ∃ xi : V, select_x args (.single i) = some xi ∧ args[i]? = some xi ∧
        nary_f fun_ (.single i) uop args kwargs =
          some (uop (unary_f fun_ args kwargs (.single i)) xi) ∧
        ∀ x' : V, ∃ newargs : List V,
          unary_f fun_ args kwargs (.single i) x' = fun_ newargs kwargs ∧
          newargs.length = args.length ∧ newargs[i]? = some x' ∧
          ∀ j : Nat, j ≠ i → newargs[j]? = args[j]?) ∧
    (∀ (indices : List Nat) (uop : (List V → R) → List V → S),
      (∀ i ∈ indices, i < args.length) → indices.Pairwise (fun a b => a ≠ b) →
      ∃ xs : List V, select_x args (.multi indices) = some xs ∧
        xs.length = indices.length ∧
        (∀ k : Nat, xs[k]? = (indices[k]?).bind (fun i => args[i]?)) ∧
        nary_f fun_ (.multi indices) uop args kwargs =
          some (uop (unary_f fun_ args kwargs (.multi indices)) xs) ∧
        ∀ x' : List V, x'.length = indices.length →
          ∃ newargs : List V,
            unary_f fun_ args kwargs (.multi indices) x' = fun_ newargs kwargs ∧
            newargs.length = args.length ∧
            (∀ (k i : Nat), indices[k]? = some i → newargs[i]? = x'[k]?) ∧
            ∀ j : Nat, (∀ i ∈ indices, j ≠ i) → newargs[j]? = args[j]?) := by
  constructor
  · intro i uop hi
    refine ⟨args[i], List.getElem?_eq_getElem hi, List.getElem?_eq_getElem hi, ?_, ?_⟩
    · show (select_x args (.single i)).map _ = _
      rw [show select_x args (Argnum.single i) = args[i]? from rfl,
        List.getElem?_eq_getElem hi]
      rfl
    · intro x'
      refine ⟨subvals args [(i, x')], rfl, subvals_length args [(i, x')], ?_, ?_⟩
      · exact subvals_getElem?_mem args [(i, x')] i x' (by simp) (by simp) hi
      · intro j hj
        refine subvals_getElem?_not_mem args [(i, x')] j ?_
        intro p hp
        rw [List.mem_singleton.mp hp]
        exact hj.symm
  · intro indices uop hin hdist
    obtain ⟨xs, hsel, hlen, hk⟩ := selectList_spec args indices hin
    refine ⟨xs, hsel, hlen, hk, ?_, ?_⟩
    · show (select_x args (.multi indices)).map _ = _
      rw [show select_x args (Argnum.multi indices) = selectList args indices from rfl, hsel]
      rfl
    · intro x' hxlen
      refine ⟨subvals args (indices.zip x'), rfl,
        subvals_length args (indices.zip x'), ?_, ?_⟩
      · intro k i hki
        have hk2 : k < indices.length := by
          by_contra hk2
          rw [List.getElem?_eq_none (by omega)] at hki
          cases hki
        have hk3 : k < x'.length := by omega
        have hxv : x'[k]? = some x'[k] := List.getElem?_eq_getElem hk3
        have hzip : (indices.zip x')[k]? = some (i, x'[k]) :=
          zip_getElem?_eq indices x' k i _ hki hxv
        have hmemz : (i, x'[k]) ∈ indices.zip x' := List.getElem?_mem hzip
        rw [subvals_getElem?_mem args (indices.zip x') i x'[k]
          (pairwise_ne_zip_fst indices x' hdist) hmemz
          (hin i (List.of_mem_zip hmemz).1), hxv]
      · intro j hj
        refine subvals_getElem?_not_mem args (indices.zip x') j ?_
        intro p hp
        exact (hj p.1 (List.of_mem_zip hp).1).symm

/-- Witness for `nary_f_spec` over concrete arguments `[10, 20, 30]`,
a single index `1` and the index collection `[0, 2]`. -/
theorem nary_f_spec_witness :
    (∃ xi : Nat, select_x [10, 20, 30] (Argnum.single 1) = some xi ∧
      ([10, 20, 30] : List Nat)[1]? = some xi ∧
      nary_f (fun l _ => l) (Argnum.single 1) (fun pf x => pf x) [10, 20, 30] () =
        some ((fun l _ => l : List Nat → Unit → List Nat)
          (subvals [10, 20, 30] [(1, xi)]) ()) ∧
      ∀ x' : Nat, ∃ newargs : List Nat,
        unary_f (fun l _ => l) [10, 20, 30] () (Argnum.single 1) x' =
          (fun l _ => l : List Nat → Unit → List Nat) newargs () ∧
        newargs.length = ([10, 20, 30] : List Nat).length ∧ newargs[1]? = some x' ∧
        ∀ j : Nat, j ≠ 1 → newargs[j]? = ([10, 20, 30] : List Nat)[j]?) ∧
    (∃ xs : List Nat, select_x [10, 20, 30] (Argnum.multi [0, 2]) = some xs ∧
      xs.length = ([0, 2] : List Nat).length ∧
      (∀ k : Nat, xs[k]? = (([0, 2] : List Nat)[k]?).bind
        (fun i => ([10, 20, 30] : List Nat)[i]?)) ∧
      nary_f (fun l _ => l) (Argnum.multi [0, 2]) (fun pf xs => pf xs) [10, 20, 30] () =
        some ((fun l _ => l : List Nat → Unit → List Nat)
          (subvals [10, 20, 30] (List.zip [0, 2] xs)) ()) ∧
      ∀ x' : List Nat, x'.length = ([0, 2] : List Nat).length →
        ∃ newargs : List Nat,
          unary_f (fun l _ => l) [10, 20, 30] () (Argnum.multi [0, 2]) x' =
            (fun l _ => l : List Nat → Unit → List Nat) newargs () ∧
          newargs.length = ([10, 20, 30] : List Nat).length ∧
          (∀ (k i : Nat), ([0, 2] : List Nat)[k]? = some i → newargs[i]? = x'[k]?) ∧
          ∀ j : Nat, (∀ i ∈ ([0, 2] : List Nat), j ≠ i) →
            newargs[j]? = ([10, 20, 30] : List Nat)[j]?) :=
  ⟨(nary_f_spec (fun l _ => l) [10, 20, 30] ()).1 1 (fun pf x => pf x) (by decide),
   (nary_f_spec (fun l _ => l) [10, 20, 30] ()).2 [0, 2] (fun pf xs => pf xs)
     (by decide) (by decide)⟩

end Autograd
